import Mathlib

/-!
# Verification of the wedding-planning API against its specification

A shallow embedding in Lean 4 of the route handlers of the `Gabiarcasi/api`
repository (Express + PostgreSQL).  Database tables are modelled as lists of
rows, SQL statements as the corresponding pure list operations, and each route
handler as a function from the relevant store state (plus request data) to a
result together with the updated state.  External capabilities (bcrypt, JWT
signing, `crypto.randomBytes`) are opaque in the source and enter the model as
plain parameters.

Sections follow the source files:
* `src/routes/team.js`   — permission guards, invitations, acceptance
* `src/routes/budget.js` — derived payment status
* wedding routes         — slug allocation (`generateUniqueSlug`), update error
  mapping
* `src/routes/users.js`  — account erasure transaction
* `src/routes/auth.js`   — registration, login, e-mail verification
* `src/routes/guests.js` — public RSVP submission
-/

namespace WeddingApi

/-! ## Data model: table rows -/

/-- A row of the `wedding_users` join table. -/
structure MembershipRow where
  user_id : Nat
  wedding_id : Nat
  permission_level : String
  relationship : String
deriving DecidableEq, Repr

/-- The slice of a `weddings` row that the embedded operations read. -/
structure WeddingRow where
  wedding_id : Nat
  groom_name : String
  bride_name : String
  website_slug : String
deriving DecidableEq, Repr

/-- A row of the `wedding_invitations` table. -/
structure InvitationRow where
  invitation_id : Nat
  wedding_id : Nat
  email : String
  permission_level : String
  invitation_token : String
  relationship : String
  status : String
deriving DecidableEq, Repr

/-- A row of the `users` table (the columns the embedded routes read).
`verification_token` stores the 6-digit code as a number;
`verification_token_expires_at` is a millisecond epoch timestamp. -/
structure UserRow where
  user_id : Nat
  name : String
  email : String
  password_hash : String
  is_verified : Bool
  verification_token : Option Nat
  verification_token_expires_at : Option Nat
deriving DecidableEq, Repr

/-- A row of the `refresh_tokens` table. -/
structure RefreshTokenRow where
  user_id : Nat
  token : String
  expires_at : Nat
deriving DecidableEq, Repr

/-- A row of the `guests` table (the columns the public RSVP routes touch). -/
structure GuestRow where
  guest_id : Nat
  wedding_id : Nat
  full_name : String
  rsvp_token : String
  rsvp_status : String
  guest_message : Option String
deriving DecidableEq, Repr

/-! ## Authorization guards (`src/routes/team.js`) -/

/-- The row-matching predicate of
`SELECT 1 FROM wedding_users WHERE user_id = $1 AND wedding_id = $2`. -/
def membershipMatches (userId weddingId : Nat) (r : MembershipRow) : Bool :=
  r.user_id == userId && r.wedding_id == weddingId

/-- `canAccessWedding` middleware (team.js, lines 24–41): passes exactly when
the `SELECT 1 FROM wedding_users WHERE user_id = $1 AND wedding_id = $2`
query returns at least one row; otherwise the request is rejected with 403. -/
def canAccessWedding (memberships : List MembershipRow) (userId weddingId : Nat) : Bool :=
  memberships.any (membershipMatches userId weddingId)

/-- `canEditWedding` middleware (team.js, lines 46–68): passes exactly when the
join `wedding_users wu JOIN weddings w ON wu.wedding_id = w.wedding_id` with
`wu.user_id = $1 AND wu.wedding_id = $2 AND wu.permission_level = 'edit'`
returns at least one row; otherwise 403. -/
def canEditWedding (memberships : List MembershipRow) (weddings : List WeddingRow)
    (userId weddingId : Nat) : Bool :=
  memberships.any fun wu =>
    membershipMatches userId weddingId wu && wu.permission_level == "edit"
      && weddings.any fun w => w.wedding_id == wu.wedding_id

/-- The three possible access decisions of the spec's `checkAccess` contract. -/
inductive AccessLevel where
  | none
  | view
  | edit
deriving DecidableEq, Repr

/-- The access decision derived from the current membership row, as the spec
describes it: no row ⇒ `none`; a row with `permission_level = 'edit'` ⇒ `edit`;
any other row ⇒ `view`.  This is the common content of the guard queries of
team.js (both read the single `wedding_users` row for the pair). -/
def checkAccess (memberships : List MembershipRow) (userId weddingId : Nat) : AccessLevel :=
  match memberships.find? (membershipMatches userId weddingId) with
  | Option.none => .none
  | some r => if r.permission_level == "edit" then .edit else .view

/-! ## Derived payment status (`src/routes/budget.js`, lines 136–157) -/

/-- The columns of a `budget_items` row that `addComputedPaymentStatus` reads.
`final_value` / `paid_value` are nullable numerics, modelled as `Option ℚ`;
`parseFloat(item.final_value || 0)` reads a missing value as `0`. -/
structure BudgetItemRow where
  decision_status : String
  final_value : Option ℚ
  paid_value : Option ℚ
deriving DecidableEq, Repr

/-- The per-item computation inside `addComputedPaymentStatus`:
default `'Pendente'`; for `'Contratado'` items, `'Pago'` when
`paid ≥ final ∧ final > 0`, else `'Pago Parcialmente'` when `paid > 0`;
`'N/A'` for every non-`'Contratado'` item. -/
def computePaymentStatus (item : BudgetItemRow) : String :=
  let finalValue : ℚ := item.final_value.getD 0
  let paidValue : ℚ := item.paid_value.getD 0
  if item.decision_status = "Contratado" then
    if paidValue ≥ finalValue ∧ finalValue > 0 then "Pago"
    else if paidValue > 0 then "Pago Parcialmente"
    else "Pendente"
  else "N/A"

/-- `addComputedPaymentStatus(items)`: maps each item to itself enriched with
the derived `payment_status` field (modelled as a pair — the stored columns are
returned unchanged, the status only travels alongside them). -/
def addComputedPaymentStatus (items : List BudgetItemRow) : List (BudgetItemRow × String) :=
  items.map fun item => (item, computePaymentStatus item)

/-! ## Team invitations (`src/routes/team.js`) -/

/-- Outcome of `POST /api/team/invite` past the edit guard. -/
inductive InviteOutcome where
  | conflict
  | sent
deriving DecidableEq, Repr

/-- The key predicate of the `ON CONFLICT (wedding_id, email)` clause. -/
def invitationKeyMatches (weddingId : Nat) (email : String) (i : InvitationRow) : Bool :=
  i.wedding_id == weddingId && i.email == email

/-- `POST /invite` (team.js, lines 77–113), after `canEditWedding`:
reject 409 when the e-mail already belongs to a member of the wedding
(join `wedding_users` × `users` on `user_id`); otherwise upsert the invitation
row keyed on `(wedding_id, email)`, overwriting `permission_level`,
`invitation_token`, `relationship` and resetting `status` to `'pending'`.
The freshly generated random token and the id a new row would receive are
passed in (`crypto.randomBytes` and the database sequence are external). -/
def invite (users : List UserRow) (memberships : List MembershipRow)
    (invitations : List InvitationRow) (weddingId : Nat)
    (email permissionLevel relationship newToken : String) (newId : Nat) :
    InviteOutcome × List InvitationRow :=
  let existingMember := memberships.any fun wu =>
    users.any fun u =>
      wu.user_id == u.user_id && wu.wedding_id == weddingId && u.email == email
  if existingMember then (.conflict, invitations)
  else if invitations.any (invitationKeyMatches weddingId email) then
    (.sent, invitations.map fun i =>
      if invitationKeyMatches weddingId email i then
        { i with permission_level := permissionLevel, invitation_token := newToken,
                 status := "pending", relationship := relationship }
      else i)
  else
    (.sent, invitations ++
      [⟨newId, weddingId, email, permissionLevel, newToken, relationship, "pending"⟩])

/-- Outcome of `POST /api/team/accept-invitation`. -/
inductive AcceptOutcome where
  | accepted (weddingId : Nat)
  | notFound
deriving DecidableEq, Repr

/-- The state the invitation routes act on. -/
structure TeamState where
  invitations : List InvitationRow
  memberships : List MembershipRow
deriving DecidableEq, Repr

/-- `POST /accept-invitation` (team.js, lines 119–146): look up the invitation
by `invitation_token = $1 AND status = 'pending'` (404 when absent); insert the
membership with the invitation's stored permission/relationship under
`ON CONFLICT DO NOTHING` (conflict key: the `(user_id, wedding_id)` pair);
then set `status = 'accepted'` on the row with that `invitation_id`. -/
def acceptInvitation (st : TeamState) (token : String) (userId : Nat) :
    AcceptOutcome × TeamState :=
  match st.invitations.find? (fun i => i.invitation_token == token && i.status == "pending") with
  | Option.none => (.notFound, st)
  | some inv =>
    let memberships :=
      if st.memberships.any (membershipMatches userId inv.wedding_id) then st.memberships
      else st.memberships ++ [⟨userId, inv.wedding_id, inv.permission_level, inv.relationship⟩]
    let invitations := st.invitations.map fun i =>
      if i.invitation_id == inv.invitation_id then { i with status := "accepted" } else i
    (.accepted inv.wedding_id, ⟨invitations, memberships⟩)

/-! ## Wedding update error mapping (wedding routes file, lines 239–246) -/

/-- The fields of a `pg` error object that the `PUT /:weddingId` catch block
inspects. -/
structure DbError where
  code : String
  constraint : String
deriving DecidableEq, Repr

/-- An HTTP error response: status code and body text. -/
structure ErrorResponse where
  status : Nat
  body : String
deriving DecidableEq, Repr

/-- The catch block of `PUT /:weddingId`: a unique-violation (`23505`) on the
`weddings_website_slug_key` constraint is answered with status 400 and a
dedicated message; every other error falls through to the generic 500. -/
def updateWeddingErrorResponse (e : DbError) : ErrorResponse :=
  if e.code = "23505" ∧ e.constraint = "weddings_website_slug_key" then
    ⟨400, "Este URL para o site já está em uso. Por favor, escolha outro."⟩
  else
    ⟨500, "Erro no servidor ao atualizar casamento."⟩

/-! ## Public RSVP submission (`src/routes/guests.js`, lines 333–354) -/

/-- Outcome of `POST /rsvp/:token`. -/
inductive RsvpOutcome where
  | success
  | notFound
deriving DecidableEq, Repr

/-- `POST /rsvp/:token`: `UPDATE guests SET rsvp_status = $1, guest_message = $2
WHERE rsvp_token = $3 RETURNING guest_id`; 404 when no row matched.  The status
and message from the request body are stored verbatim — no validation. -/
def submitRsvp (guests : List GuestRow) (token status : String) (message : Option String) :
    RsvpOutcome × List GuestRow :=
  let updated := guests.map fun g =>
    if g.rsvp_token == token then { g with rsvp_status := status, guest_message := message }
    else g
  if guests.any (fun g => g.rsvp_token == token) then (.success, updated)
  else (.notFound, guests)

/-! ## Registration, login and e-mail verification (`src/routes/auth.js`) -/

/-- Outcome of `POST /register` past the input validators. -/
inductive RegisterOutcome where
  | created (email : String)
  | conflict
deriving DecidableEq, Repr

/-- `crypto.randomInt(100000, 999999)`: a uniform integer in the half-open
range `[100000, 999999)`, here as a function of the opaque randomness. -/
def genVerificationCode (rand : Nat) : Nat :=
  100000 + rand % 899999

/-- Fifteen minutes in milliseconds, the verification-code lifetime
(`Date.now() + 15 * 60 * 1000`). -/
def verificationLifetimeMs : Nat := 15 * 60 * 1000

/-- `POST /register` (auth.js, lines 62–97), after validation: if a user row
with the e-mail exists and is unverified, delete it (`DELETE FROM users WHERE
email = $1`) and proceed; if it exists verified, answer 409 and change
nothing; then insert a fresh unverified row with the bcrypt hash, a 6-digit
verification code and a 15-minute expiry.  The hash produced by `bcrypt.hash`,
the randomness of `crypto.randomInt`, the sequence id of the new row and the
current time are external inputs. -/
def register (users : List UserRow) (name email passwordHash : String)
    (newId rand now : Nat) : RegisterOutcome × List UserRow :=
  let freshRow : UserRow :=
    ⟨newId, name, email, passwordHash, false,
      some (genVerificationCode rand), some (now + verificationLifetimeMs)⟩
  match users.find? (fun u => u.email == email) with
  | some u =>
    if u.is_verified then (.conflict, users)
    else (.created email, users.filter (fun v => !(v.email == email)) ++ [freshRow])
  | Option.none => (.created email, users ++ [freshRow])

/-- The refresh-token persistence step of `POST /login` (auth.js, lines
145–149): `DELETE FROM refresh_tokens WHERE user_id = $1` followed by
`INSERT INTO refresh_tokens (user_id, token, expires_at) VALUES ($1, $2, $3)`. -/
def loginPersistRefreshToken (tokens : List RefreshTokenRow) (userId : Nat)
    (newToken : String) (expiresAt : Nat) : List RefreshTokenRow :=
  tokens.filter (fun t => !(t.user_id == userId)) ++ [⟨userId, newToken, expiresAt⟩]

/-- Outcome of `POST /verify-email`. -/
inductive VerifyOutcome where
  | ok
  | userNotFound
  | alreadyVerified
  | badCode
deriving DecidableEq, Repr

/-- The state `POST /verify-email` acts on. -/
structure AuthState where
  users : List UserRow
  refresh_tokens : List RefreshTokenRow
deriving DecidableEq, Repr

/-- `POST /verify-email` (auth.js, lines 252–317): look the user up by e-mail
(404 when absent); 400 when already verified; 400 when the code differs from
the stored `verification_token` or the expiry has passed; otherwise mark the
user verified, clear the token columns, and insert a new refresh token —
note: the insert at lines 284–287 is NOT preceded by a delete of the user's
previously stored refresh tokens. -/
def verifyEmail (st : AuthState) (email : String) (code : Nat)
    (newRefreshToken : String) (now refreshExpiresAt : Nat) :
    VerifyOutcome × AuthState :=
  match st.users.find? (fun u => u.email == email) with
  | Option.none => (.userNotFound, st)
  | some user =>
    if user.is_verified then (.alreadyVerified, st)
    else if user.verification_token ≠ some code
        ∨ (user.verification_token_expires_at.getD 0) < now then
      (.badCode, st)
    else
      let users := st.users.map fun u =>
        if u.user_id == user.user_id then
          { u with is_verified := true, verification_token := Option.none,
                   verification_token_expires_at := Option.none }
        else u
      let tokens := st.refresh_tokens ++ [⟨user.user_id, newRefreshToken, refreshExpiresAt⟩]
      (.ok, ⟨users, tokens⟩)

/-! ## Account erasure (`src/routes/users.js`, lines 25–61) -/

/-- The four stores touched by `DELETE /users/me`. -/
structure AppState where
  users : List UserRow
  refresh_tokens : List RefreshTokenRow
  memberships : List MembershipRow
  invitations : List InvitationRow
deriving DecidableEq, Repr

/-- `(SELECT email FROM users WHERE user_id = $1)` — the scalar subquery of
the first delete. -/
def userEmail (users : List UserRow) (userId : Nat) : Option String :=
  (users.find? (fun u => u.user_id == userId)).map (fun u => u.email)

/-- Runs the four deletes of the erasure transaction in source order, with an
injected failure before statement `i` when `failAt = some i` (modelling a
storage error mid-sequence).  Returns `none` when the transaction aborts —
either through an injected failure or because the final `DELETE FROM users`
affected zero rows (`rowCount === 0` throws). -/
def runDeleteAccount (st : AppState) (userId : Nat) (failAt : Option Nat) :
    Option AppState :=
  if failAt = some 0 then Option.none else
  -- 1. DELETE FROM wedding_invitations WHERE email = (SELECT email FROM users WHERE user_id = $1)
  let st1 : AppState :=
    match userEmail st.users userId with
    | Option.none => st
    | some e => { st with invitations := st.invitations.filter (fun i => !(i.email == e)) }
  if failAt = some 1 then Option.none else
  -- 2. DELETE FROM refresh_tokens WHERE user_id = $1
  let st2 : AppState :=
    { st1 with refresh_tokens := st1.refresh_tokens.filter (fun t => !(t.user_id == userId)) }
  if failAt = some 2 then Option.none else
  -- 3. DELETE FROM wedding_users WHERE user_id = $1
  let st3 : AppState :=
    { st2 with memberships := st2.memberships.filter (fun m => !(m.user_id == userId)) }
  if failAt = some 3 then Option.none else
  -- 4. DELETE FROM users WHERE user_id = $1, throwing when rowCount = 0
  let remaining := st3.users.filter (fun u => !(u.user_id == userId))
  if st3.users.length = remaining.length then Option.none
  else some { st3 with users := remaining }

/-- `DELETE /users/me`: the transaction wrapper.  `BEGIN` … `COMMIT` on
success; on any failure `ROLLBACK` restores the pre-transaction state and the
route answers 500.  The boolean is `true` exactly on commit. -/
def deleteAccount (st : AppState) (userId : Nat) (failAt : Option Nat) :
    Bool × AppState :=
  match runDeleteAccount st userId failAt with
  | some st' => (true, st')
  | Option.none => (false, st)

/-! ## Slug allocation (wedding routes file, lines 34–51)

`generateUniqueSlug` calls the `slugify` npm package with
`{ lower: true, strict: true }` and then probes the `weddings` table for the
first free candidate among `base`, `base-1`, `base-2`, ….  The `slugify`
pipeline (simov/slugify) is: per character, apply the char map (accent
folding; the replacement character `-` becomes a space) and drop characters
outside the default keep set; then `strict` drops everything outside
`[A-Za-z0-9\s]`; then trim; then each whitespace run becomes one `-`; then
lowercase. -/

/-- The accent-folding character map of the `slugify` package, restricted to
the Latin letters it maps to ASCII (unlisted characters map to themselves). -/
def charMapPairs : List (Char × String) :=
  [(Char.ofNat 0xE1, "a"), (Char.ofNat 0xE0, "a"), (Char.ofNat 0xE2, "a"),
   (Char.ofNat 0xE3, "a"), (Char.ofNat 0xE4, "a"), (Char.ofNat 0xE5, "a"),
   (Char.ofNat 0xE9, "e"), (Char.ofNat 0xE8, "e"), (Char.ofNat 0xEA, "e"),
   (Char.ofNat 0xEB, "e"),
   (Char.ofNat 0xED, "i"), (Char.ofNat 0xEC, "i"), (Char.ofNat 0xEE, "i"),
   (Char.ofNat 0xEF, "i"),
   (Char.ofNat 0xF3, "o"), (Char.ofNat 0xF2, "o"), (Char.ofNat 0xF4, "o"),
   (Char.ofNat 0xF5, "o"), (Char.ofNat 0xF6, "o"),
   (Char.ofNat 0xFA, "u"), (Char.ofNat 0xF9, "u"), (Char.ofNat 0xFB, "u"),
   (Char.ofNat 0xFC, "u"), (Char.ofNat 0xE7, "c"), (Char.ofNat 0xF1, "n"),
   (Char.ofNat 0xC1, "A"), (Char.ofNat 0xC0, "A"), (Char.ofNat 0xC2, "A"),
   (Char.ofNat 0xC3, "A"), (Char.ofNat 0xC4, "A"), (Char.ofNat 0xC5, "A"),
   (Char.ofNat 0xC9, "E"), (Char.ofNat 0xC8, "E"), (Char.ofNat 0xCA, "E"),
   (Char.ofNat 0xCB, "E"),
   (Char.ofNat 0xCD, "I"), (Char.ofNat 0xCC, "I"), (Char.ofNat 0xCE, "I"),
   (Char.ofNat 0xCF, "I"),
   (Char.ofNat 0xD3, "O"), (Char.ofNat 0xD2, "O"), (Char.ofNat 0xD4, "O"),
   (Char.ofNat 0xD5, "O"), (Char.ofNat 0xD6, "O"),
   (Char.ofNat 0xDA, "U"), (Char.ofNat 0xD9, "U"), (Char.ofNat 0xDB, "U"),
   (Char.ofNat 0xDC, "U"), (Char.ofNat 0xC7, "C"), (Char.ofNat 0xD1, "N")]

/-- Look a character up in the char map; unmapped characters pass through. -/
def charMap (c : Char) : String :=
  match charMapPairs.find? (fun p => p.1 == c) with
  | some p => p.2
  | Option.none => String.singleton c

/-- JavaScript regex `\s` on the ASCII range: space, tab, LF, CR, VT, FF. -/
def jsIsSpace (c : Char) : Bool :=
  c == ' ' || c == '\t' || c == '\n' || c == '\r' || c == Char.ofNat 0xb || c == Char.ofNat 0xc

/-- The default removal regex of `slugify` deletes everything outside
`[\w\s$*_+~.()'"!\-:@]`; this is the kept set. -/
def slugifyKeepDefault (c : Char) : Bool :=
  c.isAlphanum || c == '_' || jsIsSpace c ||
    [' ', '$', '*', '+', '~', '.', '(', ')', Char.ofNat 39, Char.ofNat 34,
      '!', '-', ':', '@'].contains c

/-- One character through the reduce step of `slugify`: char-map it, turn the
replacement character into a space, drop removed characters. -/
def slugifyMapChar (c : Char) : String :=
  let mapped := charMap c
  let mapped := if mapped = "-" then " " else mapped
  String.mk (mapped.toList.filter slugifyKeepDefault)

/-- The `strict` filter: keep only `[A-Za-z0-9]` and whitespace. -/
def slugifyKeepStrict (c : Char) : Bool :=
  c.isAlphanum || jsIsSpace c

/-- `String.prototype.trim` on a character list. -/
def trimAscii (l : List Char) : List Char :=
  ((l.dropWhile jsIsSpace).reverse.dropWhile jsIsSpace).reverse

/-- `replace(/\s+/g, replacement)` with replacement `-`: every maximal
whitespace run becomes a single hyphen. -/
def collapseWs : List Char → List Char
  | [] => []
  | c :: rest =>
    if jsIsSpace c then '-' :: collapseWs (rest.dropWhile jsIsSpace)
    else c :: collapseWs rest
termination_by l => l.length
decreasing_by
  · exact Nat.lt_succ_of_le (List.dropWhile_sublist jsIsSpace).length_le
  · simp

/-- `slugify(s, { lower: true, strict: true })`. -/
def slugify (s : String) : String :=
  let reduced := String.join (s.toList.map slugifyMapChar)
  let strict := reduced.toList.filter slugifyKeepStrict
  let collapsed := collapseWs (trimAscii strict)
  String.toLower (String.mk collapsed)

/-- The candidate probed on the k-th iteration of the `do … while` loop of
`generateUniqueSlug`: the base slug first, then `` `${baseSlug}-${suffix}` ``
with suffix 1, 2, …. -/
def slugCandidate (base : String) : Nat → String
  | 0 => base
  | Nat.succ k => base ++ "-" ++ Nat.repr (k + 1)

/-- The probing loop of `generateUniqueSlug`: each iteration runs
`SELECT 1 FROM weddings WHERE website_slug = $1` (membership in the stored
slug list) and moves to the next suffixed candidate while the current one is
taken.  The source loop is unbounded; the embedding carries fuel, and
`existing.length + 1` probes are proved sufficient below (`slugCandidate` is
injective, so some candidate among the first `existing.length + 1` is free). -/
def firstFreeSlug (existing : List String) (base : String) : Nat → Nat → String
  | k, 0 => slugCandidate base k
  | k, Nat.succ fuel =>
    if slugCandidate base k ∈ existing then firstFreeSlug existing base (k + 1) fuel
    else slugCandidate base k

/-- `generateUniqueSlug(groomName, brideName)` against the list of slugs
currently stored in the `weddings` table:
base ``slugify(`${brideName}-e-${groomName}`, { lower: true, strict: true })``,
then the first free candidate. -/
def generateUniqueSlug (existing : List String) (groomName brideName : String) : String :=
  firstFreeSlug existing (slugify (brideName ++ "-e-" ++ groomName)) 0 (existing.length + 1)

/-! ## Decimal rendering: `Nat.repr` is injective

`` `${suffix}` `` renders the suffix in decimal, i.e. `Nat.repr`.  The
distinctness of the probed candidates rests on the injectivity of `Nat.repr`,
proved here through a decimal-valuation round trip over `Nat.toDigitsCore`. -/

/-- Reads a digit string (most significant first) back as a number. -/
def decimalVal (l : List Char) : Nat :=
  l.foldl (fun a c => 10 * a + (c.toNat - 48)) 0

theorem digitChar_val : ∀ d, d < 10 → (Nat.digitChar d).toNat - 48 = d := by decide

theorem decimalVal_append (l : List Char) (c : Char) :
    decimalVal (l ++ [c]) = 10 * decimalVal l + (c.toNat - 48) := by
  simp [decimalVal, List.foldl_append]

theorem toDigitsCore_append (fuel : Nat) :
    ∀ n ds, n < fuel →
      Nat.toDigitsCore 10 fuel n ds = Nat.toDigitsCore 10 fuel n [] ++ ds := by
  induction fuel with
  | zero => intro n ds h; omega
  | succ fuel ih =>
    intro n ds _h
    simp only [Nat.toDigitsCore]
    by_cases hdiv : n / 10 = 0
    · simp [hdiv]
    · have hlt : n / 10 < fuel := by omega
      simp only [hdiv, if_false]
      rw [ih (n / 10) (Nat.digitChar (n % 10) :: ds) hlt,
          ih (n / 10) [Nat.digitChar (n % 10)] hlt]
      simp

theorem toDigitsCore_decimalVal (fuel : Nat) :
    ∀ n, n < fuel → decimalVal (Nat.toDigitsCore 10 fuel n []) = n := by
  induction fuel with
  | zero => intro n h; omega
  | succ fuel ih =>
    intro n _h
    simp only [Nat.toDigitsCore]
    by_cases hdiv : n / 10 = 0
    · have hn : n < 10 := by omega
      simp [hdiv, decimalVal, Nat.mod_eq_of_lt hn]
      exact digitChar_val n hn
    · have hlt : n / 10 < fuel := by omega
      simp only [hdiv, if_false]
      rw [toDigitsCore_append fuel (n / 10) [Nat.digitChar (n % 10)] hlt,
          decimalVal_append, ih (n / 10) hlt,
          digitChar_val (n % 10) (Nat.mod_lt n (by norm_num))]
      omega

theorem natRepr_decimalVal (n : Nat) : decimalVal (Nat.toDigits 10 n) = n :=
  toDigitsCore_decimalVal (n + 1) n (Nat.lt_succ_self n)

theorem natRepr_injective : Function.Injective Nat.repr := by
  intro m n h
  have hlist : Nat.toDigits 10 m = Nat.toDigits 10 n := by
    have hd := congrArg String.data h
    simpa [Nat.repr, List.asString] using hd
  have hm := natRepr_decimalVal m
  have hn := natRepr_decimalVal n
  rw [← hm, ← hn, hlist]

theorem slugCandidate_injective (base : String) :
    Function.Injective (slugCandidate base) := by
  have hlen : ∀ j : Nat, base ≠ base ++ "-" ++ Nat.repr (j + 1) := by
    intro j h
    have hl := congrArg String.length h
    have h1 : ("-" : String).length = 1 := rfl
    simp [String.length_append, h1] at hl
    omega
  intro i j h
  match i, j with
  | 0, 0 => rfl
  | 0, Nat.succ j => exact absurd h (hlen j)
  | Nat.succ i, 0 => exact absurd h.symm (hlen i)
  | Nat.succ i, Nat.succ j =>
    have hd := congrArg String.data h
    simp only [slugCandidate, String.data_append] at hd
    have hr : Nat.repr (i + 1) = Nat.repr (j + 1) :=
      congrArg String.mk (List.append_cancel_left hd)
    have := natRepr_injective hr
    omega

theorem exists_free_slugCandidate (existing : List String) (base : String) :
    ∃ k, k < existing.length + 1 ∧ slugCandidate base k ∉ existing := by
  by_contra hcon
  push_neg at hcon
  have hnodup : ((List.range (existing.length + 1)).map (slugCandidate base)).Nodup :=
    (List.nodup_range _).map (slugCandidate_injective base)
  have hsub : ((List.range (existing.length + 1)).map (slugCandidate base)).toFinset ⊆
      existing.toFinset := by
    intro x hx
    simp only [List.mem_toFinset, List.mem_map, List.mem_range] at hx
    obtain ⟨k, hk, rfl⟩ := hx
    simpa [List.mem_toFinset] using hcon k hk
  have h1 : ((List.range (existing.length + 1)).map (slugCandidate base)).toFinset.card =
      existing.length + 1 := by
    rw [List.toFinset_card_of_nodup hnodup]
    simp
  have h2 := Finset.card_le_card hsub
  have h3 := existing.toFinset_card_le
  omega

theorem firstFreeSlug_spec (existing : List String) (base : String) :
    ∀ fuel k, (∃ j, k ≤ j ∧ j < k + fuel ∧ slugCandidate base j ∉ existing) →
      ∃ m, k ≤ m ∧ firstFreeSlug existing base k fuel = slugCandidate base m ∧
        slugCandidate base m ∉ existing ∧
        ∀ i, k ≤ i → i < m → slugCandidate base i ∈ existing := by
  intro fuel
  induction fuel with
  | zero =>
    intro k hex
    obtain ⟨j, hkj, hj, _⟩ := hex
    omega
  | succ fuel ih =>
    intro k hex
    by_cases hmem : slugCandidate base k ∈ existing
    · have hex2 : ∃ j, k + 1 ≤ j ∧ j < (k + 1) + fuel ∧ slugCandidate base j ∉ existing := by
        obtain ⟨j, hkj, hjlt, hfree⟩ := hex
        refine ⟨j, ?_, by omega, hfree⟩
        rcases Nat.eq_or_lt_of_le hkj with rfl | hlt
        · exact absurd hmem hfree
        · omega
      obtain ⟨m, hkm, heq, hfree, hall⟩ := ih (k + 1) hex2
      refine ⟨m, by omega, ?_, hfree, ?_⟩
      · simpa [firstFreeSlug, hmem] using heq
      · intro i hki him
        rcases Nat.eq_or_lt_of_le hki with rfl | hlt
        · exact hmem
        · exact hall i hlt him
    · exact ⟨k, Nat.le_refl k, by simp [firstFreeSlug, hmem], hmem, fun i h1 h2 => by omega⟩

/-- C3: slug allocation computes
`base = slugify("{bride}-e-{groom}", { lower: true, strict: true })`, probes
`base, base-1, base-2, …` in order, and returns the first candidate not
present in the stored slugs; hence the returned slug is distinct from every
existing slug, and re-running the allocator after storing the result (the
colliding-base case) yields a different slug. -/
theorem generateUniqueSlug_allocates_fresh (existing : List String)
    (groomName brideName : String) :
    ∃ k, generateUniqueSlug existing groomName brideName
          = slugCandidate (slugify (brideName ++ "-e-" ++ groomName)) k ∧
        generateUniqueSlug existing groomName brideName ∉ existing ∧
        (∀ i, i < k → slugCandidate (slugify (brideName ++ "-e-" ++ groomName)) i ∈ existing) ∧
        generateUniqueSlug (existing ++ [generateUniqueSlug existing groomName brideName])
            groomName brideName ≠ generateUniqueSlug existing groomName brideName := by
  obtain ⟨j, hj, hfree⟩ :=
    exists_free_slugCandidate existing (slugify (brideName ++ "-e-" ++ groomName))
  obtain ⟨m, _, heq, hfreem, hall⟩ :=
    firstFreeSlug_spec existing (slugify (brideName ++ "-e-" ++ groomName))
      (existing.length + 1) 0 ⟨j, Nat.zero_le j, by omega, hfree⟩
  have hgen : generateUniqueSlug existing groomName brideName
      = slugCandidate (slugify (brideName ++ "-e-" ++ groomName)) m := heq
  obtain ⟨j2, hj2, hfree2⟩ :=
    exists_free_slugCandidate (existing ++ [generateUniqueSlug existing groomName brideName])
      (slugify (brideName ++ "-e-" ++ groomName))
  obtain ⟨m2, _, heq2, hfreem2, _⟩ :=
    firstFreeSlug_spec (existing ++ [generateUniqueSlug existing groomName brideName])
      (slugify (brideName ++ "-e-" ++ groomName))
      ((existing ++ [generateUniqueSlug existing groomName brideName]).length + 1) 0
      ⟨j2, Nat.zero_le j2, by omega, hfree2⟩
  refine ⟨m, hgen, hgen ▸ hfreem, fun i hi => hall i (Nat.zero_le i) hi, ?_⟩
  intro hcontr
  have hself : generateUniqueSlug existing groomName brideName
      ∈ existing ++ [generateUniqueSlug existing groomName brideName] := by
    simp
  have hgen2 : generateUniqueSlug (existing ++ [generateUniqueSlug existing groomName brideName])
      groomName brideName
      = slugCandidate (slugify (brideName ++ "-e-" ++ groomName)) m2 := heq2
  rw [hgen2] at hcontr
  rw [hcontr] at hfreem2
  exact hfreem2 hself

theorem membershipMatches_iff (userId weddingId : Nat) (r : MembershipRow) :
    membershipMatches userId weddingId r = true ↔
      r.user_id = userId ∧ r.wedding_id = weddingId := by
  simp [membershipMatches]

/-- C1: the access decision is derived from the membership row — no row ⇒
`none`, a row with `permission_level = 'edit'` ⇒ `edit`, any other row ⇒
`view` — and the guards agree with it: `canAccessWedding` passes exactly when
the decision is not `none`, `canEditWedding` passes exactly when it is
`edit`, and passing the edit guard implies passing the access guard.  The two
database-shaped hypotheses are the key constraint of `wedding_users` (at most
one row per (user, wedding) pair) and the foreign key from `wedding_users`
to `weddings`. -/
theorem checkAccess_guards (memberships : List MembershipRow) (weddings : List WeddingRow)
    (userId weddingId : Nat)
    (huniq : ∀ r₁ ∈ memberships, ∀ r₂ ∈ memberships,
      r₁.user_id = r₂.user_id → r₁.wedding_id = r₂.wedding_id → r₁ = r₂)
    (href : ∀ r ∈ memberships, ∃ w ∈ weddings, w.wedding_id = r.wedding_id) :
    (checkAccess memberships userId weddingId = AccessLevel.none ↔
      ∀ r ∈ memberships, ¬(r.user_id = userId ∧ r.wedding_id = weddingId)) ∧
    (checkAccess memberships userId weddingId = AccessLevel.edit ↔
      ∃ r ∈ memberships, r.user_id = userId ∧ r.wedding_id = weddingId ∧
        r.permission_level = "edit") ∧
    (checkAccess memberships userId weddingId = AccessLevel.view ↔
      ∃ r ∈ memberships, r.user_id = userId ∧ r.wedding_id = weddingId ∧
        r.permission_level ≠ "edit") ∧
    (canAccessWedding memberships userId weddingId = true ↔
      checkAccess memberships userId weddingId ≠ AccessLevel.none) ∧
    (canEditWedding memberships weddings userId weddingId = true ↔
      checkAccess memberships userId weddingId = AccessLevel.edit) ∧
    (canEditWedding memberships weddings userId weddingId = true →
      canAccessWedding memberships userId weddingId = true) := by
  have haccP : canAccessWedding memberships userId weddingId = true ↔
      ∃ r ∈ memberships, r.user_id = userId ∧ r.wedding_id = weddingId := by
    simp only [canAccessWedding, List.any_eq_true, membershipMatches,
      Bool.and_eq_true, beq_iff_eq]
  have heditP : canEditWedding memberships weddings userId weddingId = true ↔
      ∃ r ∈ memberships, (r.user_id = userId ∧ r.wedding_id = weddingId) ∧
        r.permission_level = "edit" ∧ ∃ w ∈ weddings, w.wedding_id = r.wedding_id := by
    simp only [canEditWedding, List.any_eq_true, membershipMatches,
      Bool.and_eq_true, beq_iff_eq]
    constructor
    · rintro ⟨r, hr, ⟨h12, h3⟩, hw⟩
      exact ⟨r, hr, h12, h3, hw⟩
    · rintro ⟨r, hr, h12, h3, hw⟩
      exact ⟨r, hr, ⟨h12, h3⟩, hw⟩
  have h6 : canEditWedding memberships weddings userId weddingId = true →
      canAccessWedding memberships userId weddingId = true := by
    intro he
    obtain ⟨r, hr, hm, _⟩ := heditP.mp he
    exact haccP.mpr ⟨r, hr, hm⟩
  cases hfind : memberships.find? (membershipMatches userId weddingId) with
  | none =>
    have hno : ∀ r ∈ memberships, ¬(r.user_id = userId ∧ r.wedding_id = weddingId) := by
      intro r hr hcon
      exact absurd ((membershipMatches_iff userId weddingId r).mpr hcon)
        (by simpa using List.find?_eq_none.mp hfind r hr)
    have hca : checkAccess memberships userId weddingId = AccessLevel.none := by
      simp [checkAccess, hfind]
    refine ⟨⟨fun _ => hno, fun _ => hca⟩, ?_, ?_, ?_, ?_, h6⟩
    · constructor
      · intro h
        rw [hca] at h
        cases h
      · rintro ⟨r, hr, h1, h2, _⟩
        exact absurd ⟨h1, h2⟩ (hno r hr)
    · constructor
      · intro h
        rw [hca] at h
        cases h
      · rintro ⟨r, hr, h1, h2, _⟩
        exact absurd ⟨h1, h2⟩ (hno r hr)
    · constructor
      · intro h
        obtain ⟨r, hr, hm⟩ := haccP.mp h
        exact absurd hm (hno r hr)
      · intro h
        exact absurd hca h
    · constructor
      · intro h
        obtain ⟨r, hr, hm, _⟩ := heditP.mp h
        exact absurd hm (hno r hr)
      · intro h
        rw [hca] at h
        cases h
  | some r =>
    have hmatch := List.find?_some hfind
    have hmP : r.user_id = userId ∧ r.wedding_id = weddingId :=
      (membershipMatches_iff userId weddingId r).mp hmatch
    have hmem : r ∈ memberships := List.mem_of_find?_eq_some hfind
    have hkey : ∀ r2 ∈ memberships, r2.user_id = userId → r2.wedding_id = weddingId → r2 = r :=
      fun r2 hr2 h1 h2 => huniq r2 hr2 r hmem (h1.trans hmP.1.symm) (h2.trans hmP.2.symm)
    by_cases hperm : r.permission_level = "edit"
    · have hca : checkAccess memberships userId weddingId = AccessLevel.edit := by
        simp [checkAccess, hfind, hperm]
      refine ⟨?_, ⟨fun _ => ⟨r, hmem, hmP.1, hmP.2, hperm⟩, fun _ => hca⟩, ?_, ?_, ?_, h6⟩
      · constructor
        · intro h
          rw [hca] at h
          cases h
        · intro hno
          exact absurd hmP (hno r hmem)
      · constructor
        · intro h
          rw [hca] at h
          cases h
        · rintro ⟨r2, hr2, h1, h2, hne⟩
          exact absurd ((hkey r2 hr2 h1 h2) ▸ hne) (by simp [hperm])
      · constructor
        · intro _
          rw [hca]
          intro h
          cases h
        · intro _
          exact haccP.mpr ⟨r, hmem, hmP⟩
      · constructor
        · intro _
          exact hca
        · intro _
          exact heditP.mpr ⟨r, hmem, hmP, hperm, href r hmem⟩
    · have hca : checkAccess memberships userId weddingId = AccessLevel.view := by
        simp [checkAccess, hfind, hperm]
      refine ⟨?_, ?_, ⟨fun _ => ⟨r, hmem, hmP.1, hmP.2, hperm⟩, fun _ => hca⟩, ?_, ?_, h6⟩
      · constructor
        · intro h
          rw [hca] at h
          cases h
        · intro hno
          exact absurd hmP (hno r hmem)
      · constructor
        · intro h
          rw [hca] at h
          cases h
        · rintro ⟨r2, hr2, h1, h2, hpe⟩
          exact absurd ((hkey r2 hr2 h1 h2) ▸ hpe) (by simp [hperm])
      · constructor
        · intro _
          rw [hca]
          intro h
          cases h
        · intro _
          exact haccP.mpr ⟨r, hmem, hmP⟩
      · constructor
        · intro he
          obtain ⟨r2, hr2, hm2, hp2, _⟩ := heditP.mp he
          exact absurd ((hkey r2 hr2 hm2.1 hm2.2) ▸ hp2) hperm
        · intro h
          rw [hca] at h
          cases h

/-- Witness for C1 at a concrete store: user 1 holds an edit membership on
wedding 2, and wedding 2 exists. -/
theorem checkAccess_guards_witness :
    (∀ r1 ∈ [MembershipRow.mk 1 2 "edit" "Noivo/Noiva"],
      ∀ r2 ∈ [MembershipRow.mk 1 2 "edit" "Noivo/Noiva"],
      r1.user_id = r2.user_id → r1.wedding_id = r2.wedding_id → r1 = r2) ∧
    (∀ r ∈ [MembershipRow.mk 1 2 "edit" "Noivo/Noiva"],
      ∃ w ∈ [WeddingRow.mk 2 "G" "B" "g-e-b"], w.wedding_id = r.wedding_id) ∧
    (checkAccess [MembershipRow.mk 1 2 "edit" "Noivo/Noiva"] 1 2 = AccessLevel.edit ∧
      canEditWedding [MembershipRow.mk 1 2 "edit" "Noivo/Noiva"]
        [WeddingRow.mk 2 "G" "B" "g-e-b"] 1 2 = true ∧
      canAccessWedding [MembershipRow.mk 1 2 "edit" "Noivo/Noiva"] 1 2 = true) := by
  refine ⟨by decide, by decide, ?_, ?_, ?_⟩
  · exact (checkAccess_guards [MembershipRow.mk 1 2 "edit" "Noivo/Noiva"]
      [WeddingRow.mk 2 "G" "B" "g-e-b"] 1 2 (by decide) (by decide)).2.1.mpr
      ⟨MembershipRow.mk 1 2 "edit" "Noivo/Noiva", by decide, rfl, rfl, rfl⟩
  · exact (checkAccess_guards [MembershipRow.mk 1 2 "edit" "Noivo/Noiva"]
      [WeddingRow.mk 2 "G" "B" "g-e-b"] 1 2 (by decide) (by decide)).2.2.2.2.1.mpr
      (by decide)
  · exact (checkAccess_guards [MembershipRow.mk 1 2 "edit" "Noivo/Noiva"]
      [WeddingRow.mk 2 "G" "B" "g-e-b"] 1 2 (by decide) (by decide)).2.2.2.2.2
      (by decide)

/-- C5: payment status is a pure derived field — `addComputedPaymentStatus`
returns the stored columns unchanged, and the derived value is `Pago` when
hired with `paid ≥ final > 0`, `Pago Parcialmente` when hired with
`0 < paid < final`, `Pendente` when hired with nothing paid, `N/A` when not
hired; the four reference cases evaluate as the spec lists them. -/
theorem paymentStatus_derivation (items : List BudgetItemRow) (item : BudgetItemRow) :
    ((addComputedPaymentStatus items).map Prod.fst = items) ∧
    (computePaymentStatus item = "Pago" ∨ computePaymentStatus item = "Pago Parcialmente" ∨
      computePaymentStatus item = "Pendente" ∨ computePaymentStatus item = "N/A") ∧
    (item.decision_status = "Contratado" → item.paid_value.getD 0 ≥ item.final_value.getD 0 →
      item.final_value.getD 0 > 0 → computePaymentStatus item = "Pago") ∧
    (item.decision_status = "Contratado" → 0 < item.paid_value.getD 0 →
      item.paid_value.getD 0 < item.final_value.getD 0 →
      computePaymentStatus item = "Pago Parcialmente") ∧
    (item.decision_status = "Contratado" → item.paid_value.getD 0 = 0 →
      computePaymentStatus item = "Pendente") ∧
    (item.decision_status ≠ "Contratado" → computePaymentStatus item = "N/A") ∧
    computePaymentStatus ⟨"Contratado", some 100, some 100⟩ = "Pago" ∧
    computePaymentStatus ⟨"Contratado", some 100, some 40⟩ = "Pago Parcialmente" ∧
    computePaymentStatus ⟨"Contratado", some 100, some 0⟩ = "Pendente" ∧
    computePaymentStatus ⟨"Analisando", some 100, some 0⟩ = "N/A" := by
  refine ⟨?_, ?_, ?_, ?_, ?_, ?_, by decide, by decide, by decide, by decide⟩
  · have hid : (Prod.fst ∘ fun it : BudgetItemRow => (it, computePaymentStatus it)) = id := by
      funext x
      rfl
    simp [addComputedPaymentStatus, List.map_map, hid]
  · by_cases h1 : item.decision_status = "Contratado"
    · by_cases h2 : item.paid_value.getD 0 ≥ item.final_value.getD 0 ∧
          item.final_value.getD 0 > 0
      · exact Or.inl (by simp [computePaymentStatus, h1, h2.1, h2.2])
      · by_cases h3 : item.paid_value.getD 0 > 0
        · exact Or.inr (Or.inl (by simp [computePaymentStatus, h1, h2, h3]))
        · exact Or.inr (Or.inr (Or.inl (by simp [computePaymentStatus, h1, h2, h3])))
    · exact Or.inr (Or.inr (Or.inr (by simp [computePaymentStatus, h1])))
  · intro h1 h2 h3
    simp [computePaymentStatus, h1, h2, h3]
  · intro h1 h2 h3
    have h4 : ¬(item.paid_value.getD 0 ≥ item.final_value.getD 0 ∧
        item.final_value.getD 0 > 0) := by
      rintro ⟨hge, _⟩
      exact absurd h3 (not_lt.mpr hge)
    simp [computePaymentStatus, h1, h2, h4]
  · intro h1 h2
    have h4 : ¬(item.paid_value.getD 0 ≥ item.final_value.getD 0 ∧
        item.final_value.getD 0 > 0) := by
      rintro ⟨hge, hpos⟩
      rw [h2] at hge
      exact absurd (lt_of_lt_of_le hpos hge) (lt_irrefl 0)
    simp [computePaymentStatus, h1, h2, h4]
  · intro h1
    simp [computePaymentStatus, h1]

/-- Witness for C5: the partial-payment conditional applied at the
(Contratado, 100, 40) reference item. -/
theorem paymentStatus_derivation_witness :
    computePaymentStatus ⟨"Contratado", some 100, some 40⟩ = "Pago Parcialmente" :=
  (paymentStatus_derivation [] ⟨"Contratado", some 100, some 40⟩).2.2.2.1 rfl
    (by norm_num) (by norm_num)

/-- C7 counterexample: the duplicate-slug unique violation raised inside
`PUT /:weddingId` is answered with HTTP status 400, not with the 409 the
claim names. -/
theorem updateWedding_slugConflict_not_409 :
    (updateWeddingErrorResponse ⟨"23505", "weddings_website_slug_key"⟩).status = 400 ∧
    (updateWeddingErrorResponse ⟨"23505", "weddings_website_slug_key"⟩).status ≠ 409 := by
  constructor <;> decide

/-- C7 (amended): the duplicate-slug unique violation is mapped to a specific
response — status 400 with a dedicated message — distinguishable from the
generic 500 ServerError that every other error receives, though it shares the
400 status code with validation failures rather than using 409. -/
theorem updateWedding_slugConflict_mapping (e : DbError)
    (hcode : e.code = "23505") (hcons : e.constraint = "weddings_website_slug_key") :
    updateWeddingErrorResponse e =
      ⟨400, "Este URL para o site já está em uso. Por favor, escolha outro."⟩ ∧
    (updateWeddingErrorResponse e).status ≠ 500 ∧
    ∀ e2 : DbError, ¬(e2.code = "23505" ∧ e2.constraint = "weddings_website_slug_key") →
      updateWeddingErrorResponse e2 = ⟨500, "Erro no servidor ao atualizar casamento."⟩ := by
  refine ⟨?_, ?_, ?_⟩
  · simp [updateWeddingErrorResponse, hcode, hcons]
  · simp [updateWeddingErrorResponse, hcode, hcons]
  · intro e2 hne
    simp [updateWeddingErrorResponse, hne]

/-- Witness for the amended C7 at the concrete duplicate-slug error object. -/
theorem updateWedding_slugConflict_mapping_witness :
    updateWeddingErrorResponse ⟨"23505", "weddings_website_slug_key"⟩ =
      ⟨400, "Este URL para o site já está em uso. Por favor, escolha outro."⟩ :=
  (updateWedding_slugConflict_mapping ⟨"23505", "weddings_website_slug_key"⟩ rfl rfl).1

/-- C9: the public RSVP endpoint validates nothing about the submitted
status — for every status string and message, a token matching some guest
stores both verbatim on every matching guest row (other columns and other
guests untouched) and reports success; an unmatched token yields NotFound and
leaves the store unchanged. -/
theorem submitRsvp_no_validation (guests : List GuestRow) (token status : String)
    (message : Option String) :
    ((∀ g ∈ guests, g.rsvp_token ≠ token) →
      submitRsvp guests token status message = (RsvpOutcome.notFound, guests)) ∧
    ((∃ g ∈ guests, g.rsvp_token = token) →
      (submitRsvp guests token status message).1 = RsvpOutcome.success ∧
      (submitRsvp guests token status message).2.length = guests.length ∧
      (∀ g ∈ guests, g.rsvp_token = token →
        { g with rsvp_status := status, guest_message := message } ∈
          (submitRsvp guests token status message).2) ∧
      (∀ g ∈ guests, g.rsvp_token ≠ token →
        g ∈ (submitRsvp guests token status message).2)) := by
  constructor
  · intro hno
    have hany : guests.any (fun g => g.rsvp_token == token) = false := by
      simp only [List.any_eq_false]
      intro g hg
      simpa using hno g hg
    simp [submitRsvp, hany]
  · intro hex
    have hany : guests.any (fun g => g.rsvp_token == token) = true := by
      simp only [List.any_eq_true]
      obtain ⟨g, hg, ht⟩ := hex
      exact ⟨g, hg, by simpa using ht⟩
    refine ⟨by simp [submitRsvp, hany], by simp [submitRsvp, hany], ?_, ?_⟩
    · intro g hg ht
      simp only [submitRsvp, hany, if_true]
      exact List.mem_map.mpr ⟨g, hg, by simp [ht]⟩
    · intro g hg ht
      simp only [submitRsvp, hany, if_true]
      exact List.mem_map.mpr ⟨g, hg, by simp [ht]⟩

/-- Witness for C9: a store with one matching guest accepts the arbitrary
status string `banana` and stores it verbatim. -/
theorem submitRsvp_no_validation_witness :
    (∃ g ∈ [GuestRow.mk 1 2 "Bob" "tok" "pending" Option.none],
      g.rsvp_token = "tok") ∧
    (submitRsvp [GuestRow.mk 1 2 "Bob" "tok" "pending" Option.none]
        "tok" "banana" (some "hi")).1 = RsvpOutcome.success :=
  ⟨by decide,
    ((submitRsvp_no_validation [GuestRow.mk 1 2 "Bob" "tok" "pending" Option.none]
      "tok" "banana" (some "hi")).2 (by decide)).1⟩

/-- C2: `acceptInvitation` is single-use.  Under the database key constraints
(unique `invitation_token`, unique `invitation_id`), a successful acceptance
consumes the pending invitation — recording the membership with the
invitation's stored permission and relationship when none exists yet — and
any second acceptance of the same token (by any caller) returns NotFound and
leaves the state untouched; the at-most-one-membership-per-(user, wedding)
invariant is preserved. -/
theorem acceptInvitation_single_use (st : TeamState) (token : String) (userId wid : Nat)
    (st1 : TeamState)
    (htok : ∀ i1 ∈ st.invitations, ∀ i2 ∈ st.invitations,
      i1.invitation_token = token → i2.invitation_token = token → i1 = i2)
    (hacc : acceptInvitation st token userId = (AcceptOutcome.accepted wid, st1)) :
    (∃ inv ∈ st.invitations, inv.invitation_token = token ∧ inv.status = "pending" ∧
      inv.wedding_id = wid ∧
      (st.memberships.any (membershipMatches userId wid) = true →
        st1.memberships = st.memberships) ∧
      (st.memberships.any (membershipMatches userId wid) = false →
        st1.memberships = st.memberships ++
          [⟨userId, wid, inv.permission_level, inv.relationship⟩])) ∧
    (∀ userId2, acceptInvitation st1 token userId2 = (AcceptOutcome.notFound, st1)) ∧
    ((∀ m1 ∈ st.memberships, ∀ m2 ∈ st.memberships,
        m1.user_id = m2.user_id → m1.wedding_id = m2.wedding_id → m1 = m2) →
      ∀ m1 ∈ st1.memberships, ∀ m2 ∈ st1.memberships,
        m1.user_id = m2.user_id → m1.wedding_id = m2.wedding_id → m1 = m2) := by
  cases hfind : st.invitations.find?
      (fun i => i.invitation_token == token && i.status == "pending") with
  | none =>
    rw [acceptInvitation, hfind] at hacc
    cases hacc
  | some inv =>
    rw [acceptInvitation, hfind] at hacc
    have hwid : wid = inv.wedding_id := by
      have := congrArg Prod.fst hacc
      simpa using this.symm
    subst hwid
    have hst1 : st1 = ⟨st.invitations.map fun i =>
        if i.invitation_id == inv.invitation_id then { i with status := "accepted" } else i,
      if st.memberships.any (membershipMatches userId inv.wedding_id) then st.memberships
      else st.memberships ++
        [⟨userId, inv.wedding_id, inv.permission_level, inv.relationship⟩]⟩ := by
      have := congrArg Prod.snd hacc
      simpa using this.symm
    have hmatch := List.find?_some hfind
    have hmem := List.mem_of_find?_eq_some hfind
    simp only [Bool.and_eq_true, beq_iff_eq] at hmatch
    refine ⟨⟨inv, hmem, hmatch.1, hmatch.2, rfl, ?_, ?_⟩, ?_, ?_⟩
    · intro hany
      rw [hst1]
      simp [hany]
    · intro hany
      rw [hst1]
      simp [hany]
    · intro userId2
      have hnone : st1.invitations.find?
          (fun i => i.invitation_token == token && i.status == "pending") = Option.none := by
        rw [List.find?_eq_none]
        intro i hi
        rw [hst1] at hi
        simp only [List.mem_map] at hi
        obtain ⟨j, hj, rfl⟩ := hi
        by_cases hjid : j.invitation_id == inv.invitation_id
        · simp [hjid]
        · simp only [hjid, if_neg, Bool.and_eq_true, beq_iff_eq, not_and]
          intro hjtok hjpend
          exact absurd (congrArg InvitationRow.invitation_id
              (htok j hj inv hmem hjtok hmatch.1)) (by simpa using hjid)
      rw [acceptInvitation, hnone]
    · intro huniq m1 hm1 m2 hm2 he1 he2
      rw [hst1] at hm1 hm2
      cases hany : st.memberships.any (membershipMatches userId inv.wedding_id) with
      | true =>
        simp only [hany, if_true] at hm1 hm2
        exact huniq m1 hm1 m2 hm2 he1 he2
      | false =>
        simp only [hany, Bool.false_eq_true, if_false, List.mem_append,
          List.mem_singleton] at hm1 hm2
        have hnew : ∀ m ∈ st.memberships,
            ¬(m.user_id = userId ∧ m.wedding_id = inv.wedding_id) := by
          intro m hm hcon
          have hT : st.memberships.any (membershipMatches userId inv.wedding_id) = true := by
            simp only [List.any_eq_true]
            exact ⟨m, hm, (membershipMatches_iff userId inv.wedding_id m).mpr hcon⟩
          rw [hT] at hany
          exact Bool.noConfusion hany
        rcases hm1 with hm1 | hm1 <;> rcases hm2 with hm2 | hm2
        · exact huniq m1 hm1 m2 hm2 he1 he2
        · exfalso
          apply hnew m1 hm1
          rw [hm2] at he1 he2
          exact ⟨he1, he2⟩
        · exfalso
          apply hnew m2 hm2
          rw [hm1] at he1 he2
          exact ⟨he1.symm, he2.symm⟩
        · rw [hm1, hm2]

/-- Witness for C2: a single pending invitation, empty membership table;
the first acceptance succeeds, so the conclusions apply there. -/
theorem acceptInvitation_single_use_witness :
    (∀ i1 ∈ [InvitationRow.mk 5 2 "x@y.z" "view" "tok" "Friend" "pending"],
      ∀ i2 ∈ [InvitationRow.mk 5 2 "x@y.z" "view" "tok" "Friend" "pending"],
      i1.invitation_token = "tok" → i2.invitation_token = "tok" → i1 = i2) ∧
    (∀ userId2,
      acceptInvitation
        (acceptInvitation ⟨[InvitationRow.mk 5 2 "x@y.z" "view" "tok" "Friend" "pending"], []⟩
          "tok" 9).2 "tok" userId2 =
      (AcceptOutcome.notFound,
        (acceptInvitation ⟨[InvitationRow.mk 5 2 "x@y.z" "view" "tok" "Friend" "pending"], []⟩
          "tok" 9).2)) :=
  ⟨by decide,
    (acceptInvitation_single_use
      ⟨[InvitationRow.mk 5 2 "x@y.z" "view" "tok" "Friend" "pending"], []⟩ "tok" 9 2
      (acceptInvitation ⟨[InvitationRow.mk 5 2 "x@y.z" "view" "tok" "Friend" "pending"], []⟩
        "tok" 9).2
      (by decide) (by decide)).2.1⟩

/-- One `POST /invite` request (the data the route reads from the body plus
the externally generated token and sequence id). -/
structure InviteReq where
  weddingId : Nat
  email : String
  permissionLevel : String
  relationship : String
  token : String
  newId : Nat
deriving DecidableEq, Repr

/-- A sequence of invite operations applied in order (the member and user
tables are not modified by `/invite`, so they stay fixed). -/
def runInvites (users : List UserRow) (memberships : List MembershipRow)
    (invitations : List InvitationRow) : List InviteReq → List InvitationRow
  | [] => invitations
  | r :: rs => runInvites users memberships
      (invite users memberships invitations r.weddingId r.email
        r.permissionLevel r.relationship r.token r.newId).2 rs

/-- At most one invitation row per (wedding_id, email): no two positionally
distinct rows share the key. -/
def invitationKeyUnique (invitations : List InvitationRow) : Prop :=
  List.Pairwise (fun a b => ¬(a.wedding_id = b.wedding_id ∧ a.email = b.email)) invitations

theorem inviteUpdate_key_eq (weddingId : Nat)
    (email permissionLevel relationship newToken : String) (i : InvitationRow) :
    ((if invitationKeyMatches weddingId email i then
        { i with permission_level := permissionLevel, invitation_token := newToken,
                 status := "pending", relationship := relationship }
      else i) : InvitationRow).wedding_id = i.wedding_id ∧
    ((if invitationKeyMatches weddingId email i then
        { i with permission_level := permissionLevel, invitation_token := newToken,
                 status := "pending", relationship := relationship }
      else i) : InvitationRow).email = i.email := by
  split <;> exact ⟨rfl, rfl⟩

theorem invite_preserves_keyUnique (users : List UserRow) (memberships : List MembershipRow)
    (invitations : List InvitationRow) (weddingId : Nat)
    (email permissionLevel relationship newToken : String) (newId : Nat)
    (hu : invitationKeyUnique invitations) :
    invitationKeyUnique (invite users memberships invitations weddingId email
      permissionLevel relationship newToken newId).2 := by
  unfold invite
  by_cases hmem : (memberships.any fun wu => users.any fun u =>
      wu.user_id == u.user_id && wu.wedding_id == weddingId && u.email == email) = true
  · simpa [hmem] using hu
  · rw [Bool.not_eq_true] at hmem
    by_cases hkey : invitations.any (invitationKeyMatches weddingId email) = true
    · simp only [hmem, Bool.false_eq_true, if_false, hkey, if_true]
      refine List.Pairwise.map _ ?_ hu
      intro a b hab hcon
      apply hab
      obtain ⟨haw, hae⟩ := inviteUpdate_key_eq weddingId email permissionLevel
        relationship newToken a
      obtain ⟨hbw, hbe⟩ := inviteUpdate_key_eq weddingId email permissionLevel
        relationship newToken b
      exact ⟨(haw.symm.trans hcon.1).trans hbw, (hae.symm.trans hcon.2).trans hbe⟩
    · rw [Bool.not_eq_true] at hkey
      simp only [hmem, Bool.false_eq_true, if_false, hkey]
      rw [invitationKeyUnique, List.pairwise_append]
      refine ⟨hu, List.pairwise_singleton _ _, ?_⟩
      intro a ha b hb
      simp only [List.mem_singleton] at hb
      subst hb
      rintro ⟨hw, he⟩
      have hT : invitations.any (invitationKeyMatches weddingId email) = true := by
        simp only [List.any_eq_true]
        refine ⟨a, ha, ?_⟩
        simp [invitationKeyMatches, hw, he]
      rw [hT] at hkey
      exact Bool.noConfusion hkey

/-- C6: re-inviting never duplicates — after any sequence of invite
operations starting from a store with at most one invitation row per
(wedding, e-mail) key, the store still has at most one row per key; and an
invite hitting an existing key (with the target not already a member)
overwrites that row's token, permission level, relationship and resets its
status to pending, without changing the number of rows. -/
theorem invite_upsert_no_duplicates (users : List UserRow) (memberships : List MembershipRow)
    (invitations : List InvitationRow) (reqs : List InviteReq) (weddingId : Nat)
    (email permissionLevel relationship newToken : String) (newId : Nat)
    (hu : invitationKeyUnique invitations)
    (hnomember : (memberships.any fun wu => users.any fun u =>
      wu.user_id == u.user_id && wu.wedding_id == weddingId && u.email == email) = false)
    (hkey : invitations.any (invitationKeyMatches weddingId email) = true) :
    invitationKeyUnique (runInvites users memberships invitations reqs) ∧
    (invite users memberships invitations weddingId email
        permissionLevel relationship newToken newId).1 = InviteOutcome.sent ∧
    (invite users memberships invitations weddingId email
        permissionLevel relationship newToken newId).2.length = invitations.length ∧
    (∀ i ∈ (invite users memberships invitations weddingId email
        permissionLevel relationship newToken newId).2,
      invitationKeyMatches weddingId email i = true →
        i.permission_level = permissionLevel ∧ i.invitation_token = newToken ∧
        i.status = "pending" ∧ i.relationship = relationship) := by
  refine ⟨?_, ?_, ?_, ?_⟩
  · clear hnomember hkey
    induction reqs generalizing invitations with
    | nil => exact hu
    | cons r rs ih =>
      exact ih _ (invite_preserves_keyUnique users memberships invitations r.weddingId
        r.email r.permissionLevel r.relationship r.token r.newId hu)
  · simp [invite, hnomember, hkey]
  · simp [invite, hnomember, hkey]
  · intro i hi hik
    simp only [invite, hnomember, Bool.false_eq_true, if_false, hkey, if_true,
      List.mem_map] at hi
    obtain ⟨j, hj, rfl⟩ := hi
    by_cases hjk : invitationKeyMatches weddingId email j = true
    · simp [hjk]
    · rw [if_neg (by simpa using hjk)] at hik ⊢
      exact absurd hik hjk

/-- Witness for C6 at a concrete store: one pending invitation for
(wedding 2, x@y.z), re-invited with a new token and permission. -/
theorem invite_upsert_no_duplicates_witness :
    invitationKeyUnique [InvitationRow.mk 5 2 "x@y.z" "view" "tok1" "Friend" "pending"] ∧
    (invite [] [] [InvitationRow.mk 5 2 "x@y.z" "view" "tok1" "Friend" "pending"]
        2 "x@y.z" "edit" "Cousin" "tok2" 6).1 = InviteOutcome.sent ∧
    (invite [] [] [InvitationRow.mk 5 2 "x@y.z" "view" "tok1" "Friend" "pending"]
        2 "x@y.z" "edit" "Cousin" "tok2" 6).2.length = 1 :=
  ⟨by simp [invitationKeyUnique],
    (invite_upsert_no_duplicates [] [] [InvitationRow.mk 5 2 "x@y.z" "view" "tok1" "Friend" "pending"]
      [] 2 "x@y.z" "edit" "Cousin" "tok2" 6 (by simp [invitationKeyUnique])
      (by decide) (by decide)).2.1,
    (invite_upsert_no_duplicates [] [] [InvitationRow.mk 5 2 "x@y.z" "view" "tok1" "Friend" "pending"]
      [] 2 "x@y.z" "edit" "Cousin" "tok2" 6 (by simp [invitationKeyUnique])
      (by decide) (by decide)).2.2.1⟩

/-- C8 counterexample: `POST /verify-email` issues and persists a refresh
token without first deleting the user's previously stored ones.  Starting
from a store where user 7 (unverified, valid code) already has one stored
refresh token, a successful verification leaves two rows for user 7 — not
the single row the claim requires after every issuance. -/
theorem verifyEmail_no_prior_delete :
    (verifyEmail ⟨[UserRow.mk 7 "Ana" "a@b.c" "h" false (some 123456) (some 1000000)],
        [RefreshTokenRow.mk 7 "oldtok" 99]⟩ "a@b.c" 123456 "newtok" 500000 2000000).1 =
      VerifyOutcome.ok ∧
    ((verifyEmail ⟨[UserRow.mk 7 "Ana" "a@b.c" "h" false (some 123456) (some 1000000)],
        [RefreshTokenRow.mk 7 "oldtok" 99]⟩ "a@b.c" 123456 "newtok" 500000
        2000000).2.refresh_tokens.filter (fun t => t.user_id == 7)).length = 2 ∧
    ¬((verifyEmail ⟨[UserRow.mk 7 "Ana" "a@b.c" "h" false (some 123456) (some 1000000)],
        [RefreshTokenRow.mk 7 "oldtok" 99]⟩ "a@b.c" 123456 "newtok" 500000
        2000000).2.refresh_tokens.filter (fun t => t.user_id == 7)).length = 1 := by
  refine ⟨?_, ?_, ?_⟩ <;> decide

/-- C8 (amended): only `POST /login` enforces the single-session rule — it
deletes every stored refresh token of the user before inserting the new one,
so after a login the store holds exactly one row for that user (and rows of
other users are untouched); `POST /verify-email` persists its fresh token by
a bare insert, growing the token store by one row without deleting. -/
theorem refreshToken_single_session (tokens : List RefreshTokenRow) (userId : Nat)
    (newToken : String) (expiresAt : Nat) (st : AuthState) (email : String) (code : Nat)
    (nt : String) (now exp2 : Nat) :
    ((loginPersistRefreshToken tokens userId newToken expiresAt).filter
        (fun t => t.user_id == userId) = [⟨userId, newToken, expiresAt⟩]) ∧
    (∀ t ∈ loginPersistRefreshToken tokens userId newToken expiresAt,
        t.user_id ≠ userId → t ∈ tokens) ∧
    ((verifyEmail st email code nt now exp2).1 = VerifyOutcome.ok →
      (verifyEmail st email code nt now exp2).2.refresh_tokens.length =
        st.refresh_tokens.length + 1) := by
  refine ⟨?_, ?_, ?_⟩
  · rw [loginPersistRefreshToken, List.filter_append]
    have h1 : (tokens.filter (fun t => !(t.user_id == userId))).filter
        (fun t => t.user_id == userId) = [] := by
      rw [List.filter_eq_nil_iff]
      intro t ht
      have := List.of_mem_filter ht
      simp only [Bool.not_eq_true'] at this
      simp [this]
    rw [h1]
    simp
  · intro t ht hne
    rw [loginPersistRefreshToken] at ht
    rcases List.mem_append.mp ht with h | h
    · exact List.mem_of_mem_filter h
    · simp only [List.mem_singleton] at h
      rw [h] at hne
      exact absurd rfl hne
  · intro hok
    rw [verifyEmail] at hok ⊢
    cases hfind : st.users.find? (fun u => u.email == email) with
    | none =>
      rw [hfind] at hok
      simp at hok
    | some user =>
      rw [hfind] at hok
      by_cases hver : user.is_verified = true
      · simp [hver] at hok
      · by_cases hbad : user.verification_token ≠ some code ∨
            (user.verification_token_expires_at.getD 0) < now
        · simp [hver, hbad] at hok
        · simp [hver, hbad]

/-- Witness for the amended C8: a concrete successful verification grows the
token store from one row to two. -/
theorem refreshToken_single_session_witness :
    (verifyEmail ⟨[UserRow.mk 3 "Bea" "b@c.d" "h" false (some 222222) (some 800)],
        [RefreshTokenRow.mk 9 "other" 5]⟩ "b@c.d" 222222 "fresh" 100 900).1 =
      VerifyOutcome.ok ∧
    (verifyEmail ⟨[UserRow.mk 3 "Bea" "b@c.d" "h" false (some 222222) (some 800)],
        [RefreshTokenRow.mk 9 "other" 5]⟩ "b@c.d" 222222 "fresh" 100
        900).2.refresh_tokens.length = 1 + 1 :=
  ⟨by decide,
    (refreshToken_single_session [] 0 "" 0
        ⟨[UserRow.mk 3 "Bea" "b@c.d" "h" false (some 222222) (some 800)],
          [RefreshTokenRow.mk 9 "other" 5]⟩ "b@c.d" 222222 "fresh" 100 900).2.2
      (by decide)⟩

/-- C10: registering with the e-mail of an existing user (under the unique
e-mail constraint of `users`) deletes the old account exactly when it is
unverified — the old row is removed and a fresh unverified row is appended
with the new password hash, a 6-digit verification code and a 15-minute
expiry; when the existing account is verified, the outcome is the 409
conflict and the user table is unchanged. -/
theorem register_replaces_unverified (users : List UserRow)
    (name email passwordHash : String) (newId rand now : Nat)
    (huniq : ∀ u1 ∈ users, ∀ u2 ∈ users, u1.email = u2.email → u1 = u2) :
    (∀ u ∈ users, u.email = email → u.is_verified = true →
      register users name email passwordHash newId rand now =
        (RegisterOutcome.conflict, users)) ∧
    (∀ u ∈ users, u.email = email → u.is_verified = false →
      register users name email passwordHash newId rand now =
        (RegisterOutcome.created email,
          users.filter (fun v => !(v.email == email)) ++
            [⟨newId, name, email, passwordHash, false,
              some (genVerificationCode rand), some (now + verificationLifetimeMs)⟩]) ∧
      ∀ v ∈ users.filter (fun v => !(v.email == email)), v.email ≠ email) ∧
    (100000 ≤ genVerificationCode rand ∧ genVerificationCode rand ≤ 999998) ∧
    verificationLifetimeMs = 15 * 60 * 1000 := by
  have hrange : 100000 ≤ genVerificationCode rand ∧ genVerificationCode rand ≤ 999998 := by
    unfold genVerificationCode
    have := Nat.mod_lt rand (show 0 < 899999 by norm_num)
    omega
  refine ⟨?_, ?_, hrange, rfl⟩
  · intro u hu hue hver
    cases hfind : users.find? (fun v => v.email == email) with
    | none =>
      exact absurd (by simpa using List.find?_eq_none.mp hfind u hu) (by simp [hue])
    | some u0 =>
      have hu0mem := List.mem_of_find?_eq_some hfind
      have hu0em : u0.email = email := by simpa using List.find?_some hfind
      have : u = u0 := huniq u hu u0 hu0mem (hue.trans hu0em.symm)
      subst this
      rw [register, hfind]
      simp [hver]
  · intro u hu hue hver
    cases hfind : users.find? (fun v => v.email == email) with
    | none =>
      exact absurd (by simpa using List.find?_eq_none.mp hfind u hu) (by simp [hue])
    | some u0 =>
      have hu0mem := List.mem_of_find?_eq_some hfind
      have hu0em : u0.email = email := by simpa using List.find?_some hfind
      have : u = u0 := huniq u hu u0 hu0mem (hue.trans hu0em.symm)
      subst this
      constructor
      · rw [register, hfind]
        simp [hver]
      · intro v hv
        have := List.of_mem_filter hv
        simpa using this

/-- Witness for C10: a store holding one unverified account for the e-mail;
re-registration replaces it. -/
theorem register_replaces_unverified_witness :
    (∀ u1 ∈ [UserRow.mk 4 "Old" "e@f.g" "oldhash" false (some 111111) (some 10)],
      ∀ u2 ∈ [UserRow.mk 4 "Old" "e@f.g" "oldhash" false (some 111111) (some 10)],
      u1.email = u2.email → u1 = u2) ∧
    register [UserRow.mk 4 "Old" "e@f.g" "oldhash" false (some 111111) (some 10)]
        "New" "e@f.g" "newhash" 8 0 1000 =
      (RegisterOutcome.created "e@f.g",
        [UserRow.mk 8 "New" "e@f.g" "newhash" false (some 100000) (some 901000)]) :=
  ⟨by decide,
    by
      have h := ((register_replaces_unverified
        [UserRow.mk 4 "Old" "e@f.g" "oldhash" false (some 111111) (some 10)]
        "New" "e@f.g" "newhash" 8 0 1000 (by decide)).2.1
        (UserRow.mk 4 "Old" "e@f.g" "oldhash" false (some 111111) (some 10))
        (by decide) rfl rfl).1
      rw [h]
      decide⟩

/-- C4: account erasure is atomic.  An injected storage failure before any of
the four deletes rolls the whole transaction back, leaving all four stores
unchanged; the same happens when the final user-row delete affects zero rows
(user absent).  On the failure-free path with the user present, the committed
state has exactly the four deletions applied — pending invitations addressed
to the user's e-mail, the user's refresh tokens, the user's memberships, and
the user row — in the source's statement order. -/
theorem deleteAccount_erasure (st : AppState) (userId : Nat) (failAt : Option Nat) :
    (∀ i, i < 4 → deleteAccount st userId (some i) = (false, st)) ∧
    ((∀ u ∈ st.users, u.user_id ≠ userId) → deleteAccount st userId failAt = (false, st)) ∧
    (∀ e, userEmail st.users userId = some e → failAt = Option.none →
      deleteAccount st userId failAt =
        (true,
          ⟨st.users.filter (fun u => !(u.user_id == userId)),
           st.refresh_tokens.filter (fun t => !(t.user_id == userId)),
           st.memberships.filter (fun m => !(m.user_id == userId)),
           st.invitations.filter (fun i => !(i.email == e))⟩)) := by
  refine ⟨?_, ?_, ?_⟩
  · intro i hi
    interval_cases i <;> simp [deleteAccount, runDeleteAccount]
  · intro hno
    have hfe : userEmail st.users userId = Option.none := by
      have hfind : st.users.find? (fun u => u.user_id == userId) = Option.none := by
        rw [List.find?_eq_none]
        intro u hu
        simp [hno u hu]
      rw [userEmail, hfind]
      rfl
    have hkeep : st.users.filter (fun u => !(u.user_id == userId)) = st.users := by
      rw [List.filter_eq_self]
      intro u hu
      simp [hno u hu]
    by_cases h0 : failAt = some 0
    · simp [deleteAccount, runDeleteAccount, h0]
    · by_cases h1 : failAt = some 1
      · simp [deleteAccount, runDeleteAccount, h0, h1]
      · by_cases h2 : failAt = some 2
        · simp [deleteAccount, runDeleteAccount, h0, h1, h2]
        · by_cases h3 : failAt = some 3
          · simp [deleteAccount, runDeleteAccount, h0, h1, h2, h3]
          · simp [deleteAccount, runDeleteAccount, h0, h1, h2, h3, hfe, hkeep]
  · intro e he hf
    subst hf
    have hlt : (st.users.filter (fun u => !(u.user_id == userId))).length <
        st.users.length := by
      rw [List.length_filter_lt_length_iff_exists]
      cases hfind : st.users.find? (fun u => u.user_id == userId) with
      | none => rw [userEmail, hfind] at he; cases he
      | some u0 =>
        exact ⟨u0, List.mem_of_find?_eq_some hfind,
          by simpa using List.find?_some hfind⟩
    simp only [deleteAccount, runDeleteAccount, he]
    simp only [reduceCtorEq, if_false]
    rw [if_neg (by omega)]

/-- Witness for C4: a one-user store with one row in each child table; the
failure-free run commits with everything belonging to the user removed, and
an injected failure before the refresh-token delete rolls back. -/
theorem deleteAccount_erasure_witness :
    userEmail [UserRow.mk 1 "Ana" "a@b.c" "h" true Option.none Option.none] 1 =
      some "a@b.c" ∧
    deleteAccount
        ⟨[UserRow.mk 1 "Ana" "a@b.c" "h" true Option.none Option.none],
         [RefreshTokenRow.mk 1 "t" 5], [MembershipRow.mk 1 2 "edit" "Noivo/Noiva"],
         [InvitationRow.mk 9 2 "a@b.c" "view" "tok" "Friend" "pending"]⟩ 1 Option.none =
      (true, ⟨[], [], [], []⟩) ∧
    deleteAccount
        ⟨[UserRow.mk 1 "Ana" "a@b.c" "h" true Option.none Option.none],
         [RefreshTokenRow.mk 1 "t" 5], [MembershipRow.mk 1 2 "edit" "Noivo/Noiva"],
         [InvitationRow.mk 9 2 "a@b.c" "view" "tok" "Friend" "pending"]⟩ 1 (some 1) =
      (false,
        ⟨[UserRow.mk 1 "Ana" "a@b.c" "h" true Option.none Option.none],
         [RefreshTokenRow.mk 1 "t" 5], [MembershipRow.mk 1 2 "edit" "Noivo/Noiva"],
         [InvitationRow.mk 9 2 "a@b.c" "view" "tok" "Friend" "pending"]⟩) := by
  refine ⟨by decide, ?_, ?_⟩
  · have h := (deleteAccount_erasure
      ⟨[UserRow.mk 1 "Ana" "a@b.c" "h" true Option.none Option.none],
       [RefreshTokenRow.mk 1 "t" 5], [MembershipRow.mk 1 2 "edit" "Noivo/Noiva"],
       [InvitationRow.mk 9 2 "a@b.c" "view" "tok" "Friend" "pending"]⟩ 1
      Option.none).2.2 "a@b.c" (by decide) rfl
    rw [h]
    decide
  · exact (deleteAccount_erasure
      ⟨[UserRow.mk 1 "Ana" "a@b.c" "h" true Option.none Option.none],
       [RefreshTokenRow.mk 1 "t" 5], [MembershipRow.mk 1 2 "edit" "Noivo/Noiva"],
       [InvitationRow.mk 9 2 "a@b.c" "view" "tok" "Friend" "pending"]⟩ 1
      (some 1)).1 1 (by decide)

end WeddingApi
